import Mathlib

/-!
# go-docker: bootstrap protocol, image references, platform selection,
layer extraction and the sandbox step sequence

A shallow embedding of `cmd/bin/main.go`, `internals/docker.go` and
`internals/client.go`.  Go strings are modelled by `String`, Go slices by
`List`, Go `int` by `Int` (64-bit range checked where the library checks it).
Calls that leave the process (HTTP, system calls, the random directory
name) are inputs of the model.
-/

namespace GoDocker

deriving instance DecidableEq for Except

/-! ## `strconv` (64-bit platform) -/

/-- ASCII digit test used by `strconv.Atoi` (`ch -= 48; ch > 9` rejects). -/
def isDigit (c : Char) : Bool := decide (48 ≤ c.toNat) && decide (c.toNat ≤ 57)

/-- Value of a run of decimal digits, most significant first
(`n = n*10 + int(ch)` in `strconv.Atoi`). -/
def digitsValue (cs : List Char) : Nat :=
  cs.foldl (fun n c => n * 10 + (c.toNat - 48)) 0

/-- Splits an optional leading sign off the text, as `strconv.Atoi` does. -/
def splitSign : List Char → Bool × List Char
  | '-' :: r => (true, r)
  | '+' :: r => (false, r)
  | r => (false, r)

/-- Model of `strconv.Atoi`: `none` stands for `err != nil` (a syntax error
for an empty text, a lone sign or a non-digit; a range error outside the
64-bit `int` range). -/
def Atoi (s : String) : Option Int :=
  let p := splitSign s.data
  if p.2.isEmpty then none
  else if p.2.all isDigit then
    let v := digitsValue p.2
    if p.1 then (if v ≤ 2 ^ 63 then some (-(v : Int)) else none)
    else (if v < 2 ^ 63 then some (v : Int) else none)
  else none

/-- The character of one decimal digit. -/
def digitChar (d : Nat) : Char := Char.ofNat (48 + d)

/-- Decimal digits of `n` pushed in front of `acc`, least significant digit
first; `fuel` bounds the number of digits. -/
def natDigitsAux : Nat → Nat → List Char → List Char
  | 0, _, acc => acc
  | fuel + 1, n, acc =>
    if n / 10 = 0 then digitChar (n % 10) :: acc
    else natDigitsAux fuel (n / 10) (digitChar (n % 10) :: acc)

/-- Decimal digits of a natural number, no leading zero (`0` gives one digit). -/
def natDigits (n : Nat) : List Char := natDigitsAux (n + 1) n []

/-- Model of `strconv.Itoa`. -/
def Itoa (n : Int) : String :=
  if n < 0 then String.mk ('-' :: natDigits n.natAbs) else String.mk (natDigits n.toNat)

/-! ## `cmd/bin/main.go` -/

/-- The `ImageConfig` struct of `internals/docker.go`. -/
structure ImageConfig where
  Env : List String
  Cmd : List String
  WorkingDir : String
  deriving DecidableEq, Repr

/-- The `Client` struct of `internals/client.go`. -/
structure Client where
  basePath : String
  env : List String
  workingDir : String
  deriving DecidableEq, Repr

/-- Constructor `NewClient(basePath, workingDir, env)`. -/
def NewClient (basePath workingDir : String) (env : List String) : Client :=
  { basePath := basePath, env := env, workingDir := workingDir }

/-- The argument list `baseData` built in the `run` branch of `main`
(lines 73-83), from the pulled path and config and the arguments after the
image name (`args[2:]`). -/
def baseData (basePath : String) (imageConfig : ImageConfig) (rest : List String) :
    List String :=
  let b0 : List String := []
  let b1 := b0 ++ [basePath]
  let b2 := b1 ++ [Itoa (imageConfig.Env.length : Int)]
  let b3 := b2 ++ imageConfig.Env
  let b4 := b3 ++ [imageConfig.WorkingDir]
  if rest.length > 0 then b4 ++ rest else b4 ++ imageConfig.Cmd

/-- How the non-`run` branch of `main` ends. -/
inductive Boot where
  /-- `client := NewClient(...)` was built and `client.Run(args)` called. -/
  | launched (client : Client) (args : List String)
  /-- `panic(err)` after `strconv.Atoi` returned an error. -/
  | atoiPanic
  /-- Go run-time panic `index out of range [index] with length length`. -/
  | indexPanic (index length : Nat)
  deriving DecidableEq, Repr

/-- The env-reading loop of lines 99-103 with `todo = envLength - currentEnv`
iterations left; an out-of-range `args[argsPointer]` stops it with the
index and the length. -/
def readEnv (args : List String) : Nat → Nat → List String →
    Except (Nat × Nat) (List String × Nat)
  | 0, argsPointer, env => .ok (env, argsPointer)
  | todo + 1, argsPointer, env =>
    match args[argsPointer]? with
    | none => .error (argsPointer, args.length)
    | some a => readEnv args todo (argsPointer + 1) (env ++ [a])

/-- The body of the `else` branch of `main` (lines 87-112) on
`args = os.Args[1:]`; `main` below reaches it when `args[0]` is not `run`. -/
def bootstrap (args : List String) : Boot :=
  match args[0]? with
  | none => .indexPanic 0 args.length
  | some basePath =>
    match args[1]? with
    | none => .indexPanic 1 args.length
    | some count =>
      match Atoi count with
      | none => .atoiPanic
      | some envLength =>
        match (if envLength > 0 then readEnv args envLength.toNat 2 []
               else .ok ([], 2)) with
        | .error (i, n) => .indexPanic i n
        | .ok (env, argsPointer) =>
          match args[argsPointer]? with
          | none => .indexPanic argsPointer args.length
          | some workingDir =>
            .launched (NewClient basePath workingDir env) (args.drop (argsPointer + 1))

/-- How `main` ends. -/
inductive MainOutcome where
  /-- `log.Fatal` with the error of `godotenv.Load` or of `PullImage`. -/
  | fatal (err : String)
  /-- Go run-time panic `index out of range [index] with length length` on
  `args[0]` or on `args[1]` of the `run` branch. -/
  | indexPanic (index length : Nat)
  /-- The `run` branch called `createChild(baseData)`. -/
  | spawned (childArgs : List String)
  /-- The `else` branch ran, ending as given. -/
  | booted (boot : Boot)
  deriving DecidableEq, Repr

/-- Function `main` (lines 47-114) on `args = os.Args[1:]`.  The result of
`godotenv.Load()` (`none` for a nil error) and `dockerManager.PullImage` are
inputs. -/
def main (dotenv : Option String) (PullImage : String → Except String (String × ImageConfig))
    (args : List String) : MainOutcome :=
  match dotenv with
  | some err => .fatal err
  | none =>
    match args[0]? with
    | none => .indexPanic 0 args.length
    | some command =>
      if command = "run" then
        match args[1]? with
        | none => .indexPanic 1 args.length
        | some image =>
          match PullImage image with
          | .error err => .fatal err
          | .ok (basePath, imageConfig) =>
            .spawned (baseData basePath imageConfig (args.drop 2))
      else .booted (bootstrap args)

/-! ## `internals/docker.go`: image references -/

/-- The constant `libraryImage`. -/
def libraryImage : String := "library"

/-- The constant `manifestMediaType`. -/
def manifestMediaType : String := "application/vnd.docker.distribution.manifest.v2+json"

/-- Pieces of a text between the occurrences of a one-character separator:
`k` occurrences give `k + 1` pieces, never an empty result. -/
def splitOnChar (sep : Char) : List Char → List (List Char)
  | [] => [[]]
  | c :: cs =>
    if c = sep then [] :: splitOnChar sep cs
    else
      match splitOnChar sep cs with
      | [] => [[c]]
      | h :: t => (c :: h) :: t

/-- Model of `strings.Split(s, sep)` for the one-character separators the
program uses (`/` and `:`). -/
def Split (s : String) (sep : Char) : List String :=
  (splitOnChar sep s.data).map String.mk

/-- The `ImageDetail` struct. -/
structure ImageDetail where
  base : String
  image : String
  tag : String
  deriving DecidableEq, Repr

/-- Function `splitNameAndTag` (lines 404-412).  `Split` never returns an
empty slice, so index 0 is always in range. -/
def splitNameAndTag (name : String) : String × String :=
  let nameTagSplit := Split name ':'
  if nameTagSplit.length = 2 then (nameTagSplit.getD 0 "", nameTagSplit.getD 1 "")
  else (nameTagSplit.getD 0 "", "latest")

/-- Method `parseImageDetail` (lines 130-158); the result is the value
stored in `dm.imageDetail`, an error leaves it unset. -/
def parseImageDetail (imageName : String) : Except String ImageDetail :=
  if imageName.length = 0 then .error "image name is required"
  else
    let imageData := Split imageName '/'
    if imageData.length = 1 then
      let nt := splitNameAndTag (imageData.getD 0 "")
      .ok { base := libraryImage, image := nt.1, tag := nt.2 }
    else
      let nt := splitNameAndTag (imageData.getD 1 "")
      .ok { base := imageData.getD 0 "", image := nt.1, tag := nt.2 }

/-! ## `internals/docker.go`: platform selection -/

/-- The `PlatformDescription` struct. -/
structure PlatformDescription where
  Architecture : String
  OS : String
  deriving DecidableEq, Repr

/-- The `Manifest` struct. -/
structure Manifest where
  Digest : String
  MediaType : String
  Size : Int
  Platform : PlatformDescription
  deriving DecidableEq, Repr

/-- The `ImageManifestList` struct. -/
structure ImageManifestList where
  Manifests : List Manifest
  MediaType : String
  SchemaVersion : Int
  deriving DecidableEq, Repr

/-- The `LayerManifest` struct. -/
structure LayerManifest where
  SchemaVersion : Int
  MediaType : String
  Config : Manifest
  Layers : List Manifest
  deriving DecidableEq, Repr

/-- The `for ... range manifestList.Manifests` loop of lines 262-268 with
the fall-through `return dm.imageDetail.tag, manifestMediaType, nil`. -/
def scanManifests (curOs curArch tag : String) : List Manifest → String × String
  | [] => (tag, manifestMediaType)
  | manifest :: more =>
    if manifest.Platform.Architecture = curArch ∧ manifest.Platform.OS = curOs then
      (manifest.Digest, manifest.MediaType)
    else scanManifests curOs curArch tag more

/-- Method `getShaTagForCurrentOS` (lines 245-269).  The host `runtime.GOOS`
and `runtime.GOARCH`, the HTTP call `fetchManifest` and `json.Unmarshal` are
inputs. -/
def getShaTagForCurrentOS (curOs curArch : String)
    (fetchManifest : String → String → String → String → Except String String)
    (unmarshalList : String → Except String ImageManifestList)
    (imageDetail : ImageDetail) : Except String (String × String) :=
  match fetchManifest imageDetail.base imageDetail.image imageDetail.tag manifestMediaType with
  | .error err => .error err
  | .ok data =>
    match unmarshalList data with
    | .error err => .error err
    | .ok manifestList => .ok (scanManifests curOs curArch imageDetail.tag manifestList.Manifests)

/-! ## `internals/docker.go`: layer extraction -/

/-- One entry met by `tr.Next()`: the header fields the code reads and the
bytes `io.Copy` reads for it. -/
structure TarEntry where
  Name : String
  Typeflag : Char
  body : String
  deriving DecidableEq, Repr

/-- A decompressed layer as `tar.Reader` presents it: the entries in
archive order, then `io.EOF` (`none`) or another error (`some`). -/
structure TarStream where
  entries : List TarEntry
  failure : Option String
  deriving DecidableEq, Repr

/-- The constant `tar.TypeDir`. -/
def TypeDir : Char := '5'

/-- The constant `tar.TypeReg`. -/
def TypeReg : Char := '0'

/-- The constant `tar.TypeRegA` (a NUL byte). -/
def TypeRegA : Char := Char.ofNat 0

/-- What a location holds on disk. -/
inductive Node where
  | dir
  | file (content : String)
  deriving DecidableEq, Repr

/-- A location on disk: the names from the root directory down. -/
abbrev Loc := List String

/-- The disk as a map from location to what is there (no symbolic links:
the program creates none).  File modes are not tracked. -/
abbrev FS := Loc → Option Node

/-- The map with one location rebound. -/
def FS.set (fs : FS) (loc : Loc) (n : Node) : FS :=
  fun q => if q = loc then some n else fs q

/-- Lookup in which the root directory always exists. -/
def FS.get (fs : FS) (loc : Loc) : Option Node :=
  if loc = [] then some .dir else fs loc

/-- The location a path names for a process whose working directory is at
`cwd`: a leading `/` starts from the root, empty and `.` names are skipped
and `..` steps to the parent, which is also what `filepath.Clean` does to
the text before the kernel sees it. -/
def resolve (cwd : Loc) (path : String) : Loc :=
  (Split path '/').foldl
    (fun loc name =>
      if name = "" ∨ name = "." then loc
      else if name = ".." then loc.dropLast
      else loc ++ [name])
    (if path.data.head? = some '/' then [] else cwd)

/-- The walk of `os.MkdirAll` below the directory `done`: every name on the
way must be a directory or is created as one; a regular file on the way
stops it, leaving the directories made so far. -/
def mkdirFrom (fs : FS) (done : Loc) : List String → Option String × FS
  | [] => (none, fs)
  | name :: more =>
    match fs (done ++ [name]) with
    | some (.file _) => (some "mkdir: not a directory", fs)
    | some .dir => mkdirFrom fs (done ++ [name]) more
    | none => mkdirFrom (fs.set (done ++ [name]) .dir) (done ++ [name]) more

/-- Model of `os.MkdirAll(path, 0777)` as call number `k` of the run.
`osErr k` is the error the environment makes call `k` fail with (permission,
full disk, ...), `none` when it does not interfere. -/
def MkdirAll (osErr : Nat → Option String) (cwd : Loc) (fs : FS) (k : Nat) (path : String) :
    Option String × FS :=
  match osErr k with
  | some err => (some err, fs)
  | none => mkdirFrom fs [] (resolve cwd path)

/-- Model of `os.Create(path)` as call number `k`: fails on a directory and
when the parent is missing or is not a directory; otherwise the file exists
and is empty. -/
def Create (osErr : Nat → Option String) (cwd : Loc) (fs : FS) (k : Nat) (path : String) :
    Option String × FS :=
  match osErr k with
  | some err => (some err, fs)
  | none =>
    match fs.get (resolve cwd path) with
    | some .dir => (some "open: is a directory", fs)
    | _ =>
      match fs.get (resolve cwd path).dropLast with
      | some .dir => (none, fs.set (resolve cwd path) (.file ""))
      | some (.file _) => (some "open: not a directory", fs)
      | none => (some "open: no such file or directory", fs)

/-- Model of `io.Copy(file, tr)` as call number `k` into the file just
created at `path`: on success the file holds the body; an error leaves the
file as `os.Create` made it (a partly written body is not tracked). -/
def Copy (osErr : Nat → Option String) (cwd : Loc) (fs : FS) (k : Nat) (path body : String) :
    Option String × FS :=
  match osErr k with
  | some err => (some err, fs)
  | none => (none, fs.set (resolve cwd path) (.file body))

/-- Model of `os.Chmod(path, 0777)` as call number `k`: changes no content. -/
def Chmod (osErr : Nat → Option String) (k : Nat) : Option String :=
  osErr k

/-- The loop of `extractLayer` (lines 417-455) over the entries still to come,
with `k` calls made before; the result is the returned error (`none` for
`nil`), the disk left behind and the number of calls made. -/
def extractEntries (Join : String → String → String) (cwd : Loc)
    (osErr : Nat → Option String) (extractDirectory : String)
    (failure : Option String) : List TarEntry → FS → Nat → Option String × FS × Nat
  | [], fs, k => (failure, fs, k)
  | header :: more, fs, k =>
    let filePath := Join extractDirectory header.Name
    if header.Typeflag = TypeDir then
      match MkdirAll osErr cwd fs k filePath with
      | (some err, fs1) => (some err, fs1, k + 1)
      | (none, fs1) => extractEntries Join cwd osErr extractDirectory failure more fs1 (k + 1)
    else if header.Typeflag = TypeReg ∨ header.Typeflag = TypeRegA then
      match Create osErr cwd fs k filePath with
      | (some err, fs1) => (some err, fs1, k + 1)
      | (none, fs1) =>
        match Copy osErr cwd fs1 (k + 1) filePath header.body with
        | (some err, fs2) => (some err, fs2, k + 2)
        | (none, fs2) =>
          match Chmod osErr (k + 2) with
          | some err => (some err, fs2, k + 3)
          | none => extractEntries Join cwd osErr extractDirectory failure more fs2 (k + 3)
    else extractEntries Join cwd osErr extractDirectory failure more fs k

/-- Function `extractLayer` (lines 414-458); `filepath.Join` is an input. -/
def extractLayer (Join : String → String → String) (cwd : Loc)
    (osErr : Nat → Option String) (extractDirectory : String)
    (zipped : TarStream) (fs : FS) (k : Nat) : Option String × FS × Nat :=
  extractEntries Join cwd osErr extractDirectory zipped.failure zipped.entries fs k

/-- The loop of `fetchLayers` (lines 309-335): per layer `fetchLayerData`,
`gzip.NewReader`, `extractLayer`, stopping at the first error. -/
def fetchLayersLoop (Join : String → String → String) (cwd : Loc)
    (osErr : Nat → Option String)
    (fetchLayerData : Manifest → Except String String)
    (gunzip : String → Except String TarStream)
    (extractDirectory : String) : List Manifest → FS → Nat → Option String × FS × Nat
  | [], fs, k => (none, fs, k)
  | layer :: more, fs, k =>
    match fetchLayerData layer with
    | .error err => (some err, fs, k)
    | .ok data =>
      match gunzip data with
      | .error err => (some err, fs, k)
      | .ok zipped =>
        match extractLayer Join cwd osErr extractDirectory zipped fs k with
        | (some err, fs1, k1) => (some err, fs1, k1)
        | (none, fs1, k1) =>
          fetchLayersLoop Join cwd osErr fetchLayerData gunzip extractDirectory more fs1 k1

/-- Method `fetchLayers` (lines 300-339).  The random `uuid.NewString()`, the
HTTP download and the gzip reader are inputs; the result is the returned
`(string, error)` pair and the disk left behind. -/
def fetchLayers (Join : String → String → String) (cwd : Loc)
    (osErr : Nat → Option String) (uuid : String)
    (fetchLayerData : Manifest → Except String String)
    (gunzip : String → Except String TarStream)
    (manifest : LayerManifest) (fs : FS) : Except String String × FS :=
  let extractDirectory := "./images/" ++ uuid
  match MkdirAll osErr cwd fs 0 extractDirectory with
  | (some err, fs0) => (.error err, fs0)
  | (none, fs0) =>
    match fetchLayersLoop Join cwd osErr fetchLayerData gunzip extractDirectory
        manifest.Layers fs0 1 with
    | (some err, fs1, _) => (.error err, fs1)
    | (none, fs1, _) => (.ok extractDirectory, fs1)

/-! ## `internals/client.go` -/

/-- The calls `Client.Run` makes that can fail or have an effect outside
the process. -/
inductive Step where
  | sethostname (name : String)
  | chroot (path : String)
  | chdir (path : String)
  | mkdirAll (path : String)
  | mountProc
  | unshare
  | runCommand (command : String) (args env : List String) (dir : String)
  | unmount (path : String)
  deriving DecidableEq, Repr

/-- A run of the process so far: the calls made, in order, and whether
`log.Fatal` has ended the process (exit status 1, no deferred call run). -/
structure Trace where
  steps : List Step
  fatal : Bool
  deriving DecidableEq, Repr

/-- Sequencing: what comes after a fatal exit never happens. -/
def Trace.andThen (t : Trace) (next : Trace) : Trace :=
  if t.fatal then t else { steps := t.steps ++ next.steps, fatal := next.fatal }

/-- One call whose error is checked with `log.Fatal`; `ok s` tells whether
the call `s` returns a nil error. -/
def checked (ok : Step → Bool) (s : Step) : Trace :=
  { steps := [s], fatal := !ok s }

/-- One call whose result is discarded. -/
def unchecked (s : Step) : Trace :=
  { steps := [s], fatal := false }

/-- Method `Client.chroot` (lines 25-35). -/
def Client.chroot (c : Client) (Join : String → String → String) (ok : Step → Bool) : Trace :=
  let chRootPath := Join "./" c.basePath
  (checked ok (.chroot chRootPath)).andThen (checked ok (.chdir "/"))

/-- Method `Client.mount` (lines 37-49). -/
def Client.mount (_c : Client) (ok : Step → Bool) : Trace :=
  (checked ok (.mkdirAll "proc")).andThen
    ((checked ok .mountProc).andThen (checked ok .unshare))

/-- Method `Client.unmount` (lines 51-55). -/
def Client.unmount (_c : Client) (ok : Step → Bool) : Trace :=
  checked ok (.unmount "/proc")

/-- The body of `Client.Run` after `defer c.unmount()` (lines 67-84). -/
def Client.runBody (c : Client) (args : List String) (ok : Step → Bool) : Trace :=
  match args with
  | [] => { steps := [], fatal := false }
  | command :: args1 => checked ok (.runCommand command args1 c.env c.workingDir)

/-- Method `Client.Run` (lines 57-85).  The deferred `c.unmount()` runs when
the body returns, which a `log.Fatal` in the body prevents. -/
def Client.Run (c : Client) (Join : String → String → String) (args : List String)
    (ok : Step → Bool) : Trace :=
  let namespace1 := "container"
  (unchecked (.sethostname namespace1)).andThen
    ((c.chroot Join ok).andThen
      ((c.mount ok).andThen
        ((c.runBody args ok).andThen (c.unmount ok))))

/-- Number of process-information unmounts in a list of steps. -/
def unmountCount (steps : List Step) : Nat :=
  (steps.filter (fun s => match s with | .unmount _ => true | _ => false)).length

/-! ## Lemmas on the decimal text of a number -/

theorem digitChar_toNat (d : Nat) (h : d < 10) : (digitChar d).toNat = 48 + d := by
  interval_cases d <;> rfl

theorem isDigit_digitChar (d : Nat) (h : d < 10) : isDigit (digitChar d) = true := by
  interval_cases d <;> rfl

theorem natDigitsAux_append (fuel : Nat) : ∀ (n : Nat) (acc : List Char),
    natDigitsAux fuel n acc = natDigitsAux fuel n [] ++ acc := by
  induction fuel with
  | zero => intro n acc; simp [natDigitsAux]
  | succ f ih =>
    intro n acc
    simp only [natDigitsAux]
    split
    · simp
    · rw [ih (n / 10) (digitChar (n % 10) :: acc), ih (n / 10) [digitChar (n % 10)]]
      simp

theorem digitsValue_append_single (xs : List Char) (c : Char) :
    digitsValue (xs ++ [c]) = digitsValue xs * 10 + (c.toNat - 48) := by
  simp [digitsValue, List.foldl_append]

theorem digitsValue_natDigitsAux (fuel : Nat) : ∀ n : Nat, n < fuel →
    digitsValue (natDigitsAux fuel n []) = n := by
  induction fuel with
  | zero => intro n h; omega
  | succ f ih =>
    intro n h
    simp only [natDigitsAux]
    split
    · rename_i h0
      have hlt : n % 10 < 10 := Nat.mod_lt _ (by decide)
      simp [digitsValue, digitChar_toNat _ hlt]
      omega
    · rename_i h0
      have hlt : n % 10 < 10 := Nat.mod_lt _ (by decide)
      rw [natDigitsAux_append, digitsValue_append_single, ih (n / 10) (by omega),
        digitChar_toNat _ hlt]
      omega

theorem all_isDigit_natDigitsAux (fuel : Nat) : ∀ n : Nat,
    (natDigitsAux fuel n []).all isDigit = true := by
  induction fuel with
  | zero => intro n; simp [natDigitsAux]
  | succ f ih =>
    intro n
    have hlt : n % 10 < 10 := Nat.mod_lt _ (by decide)
    simp only [natDigitsAux]
    split
    · simp [isDigit_digitChar _ hlt]
    · rw [natDigitsAux_append, List.all_append, ih]
      simp [isDigit_digitChar _ hlt]

theorem natDigitsAux_ne_nil (fuel n : Nat) : natDigitsAux (fuel + 1) n [] ≠ [] := by
  simp only [natDigitsAux]
  split
  · simp
  · rw [natDigitsAux_append]; simp

theorem splitSign_of_digit (c : Char) (r : List Char) (h : isDigit c = true) :
    splitSign (c :: r) = (false, c :: r) := by
  have h1 : c ≠ '-' := by rintro rfl; exact absurd h (by decide)
  have h2 : c ≠ '+' := by rintro rfl; exact absurd h (by decide)
  unfold splitSign
  split
  · rename_i heq; simp at heq; exact absurd heq.1 h1
  · rename_i heq; simp at heq; exact absurd heq.1 h2
  · rfl

/-- Reading back the decimal text of a count gives the count. -/
theorem Atoi_Itoa_ofNat (n : Nat) (h : n < 2 ^ 63) : Atoi (Itoa (n : Int)) = some (n : Int) := by
  have hneg : ¬ ((n : Int) < 0) := by omega
  have hne := natDigitsAux_ne_nil n n
  have hall := all_isDigit_natDigitsAux (n + 1) n
  have hval := digitsValue_natDigitsAux (n + 1) n (by omega)
  simp only [Itoa, hneg, if_false, Int.toNat_ofNat, natDigits, Atoi]
  cases hd : natDigitsAux (n + 1) n [] with
  | nil => exact absurd hd hne
  | cons c r =>
    rw [hd] at hall hval
    have hc : isDigit c = true := by
      simp only [List.all_cons, Bool.and_eq_true] at hall; exact hall.1
    rw [splitSign_of_digit c r hc]
    simp [hall, hval, h]
    omega


/-! ## Lemmas on the bootstrap argument list -/

theorem readEnv_append (env : List String) : ∀ (pre post acc : List String),
    readEnv (pre ++ env ++ post) env.length pre.length acc
      = .ok (acc ++ env, pre.length + env.length) := by
  induction env with
  | nil => intro pre post acc; simp [readEnv]
  | cons e es ih =>
    intro pre post acc
    have hget : (pre ++ e :: es ++ post)[pre.length]? = some e := by
      rw [List.append_assoc, List.getElem?_append_right (le_refl _), Nat.sub_self]
      simp
    have hre : pre ++ e :: es ++ post = (pre ++ [e]) ++ es ++ post := by simp
    simp only [List.length_cons, readEnv, hget]
    rw [hre]
    have := ih (pre ++ [e]) post (acc ++ [e])
    simp only [List.length_append, List.length_singleton] at this
    rw [this]
    simp [Nat.add_assoc, Nat.add_comm 1]

theorem baseData_eq (basePath : String) (cfg : ImageConfig) (rest : List String) :
    baseData basePath cfg rest
      = [basePath, Itoa (cfg.Env.length : Int)] ++ cfg.Env
          ++ (cfg.WorkingDir :: (if rest.length > 0 then rest else cfg.Cmd)) := by
  unfold baseData
  split <;> simp

theorem bootstrap_frame (basePath workingDir : String) (env tail : List String)
    (h : env.length < 2 ^ 63) :
    bootstrap ([basePath, Itoa (env.length : Int)] ++ env ++ (workingDir :: tail))
      = .launched (NewClient basePath workingDir env) tail := by
  have hread : readEnv ([basePath, Itoa (env.length : Int)] ++ env ++ (workingDir :: tail))
      env.length 2 [] = .ok (env, 2 + env.length) :=
    readEnv_append env [basePath, Itoa (env.length : Int)] (workingDir :: tail) []
  have h0 : ([basePath, Itoa (env.length : Int)] ++ env ++ (workingDir :: tail))[0]?
      = some basePath := by simp
  have h1 : ([basePath, Itoa (env.length : Int)] ++ env ++ (workingDir :: tail))[1]?
      = some (Itoa (env.length : Int)) := by simp
  have hwd : ([basePath, Itoa (env.length : Int)] ++ env ++ (workingDir :: tail))[2 + env.length]?
      = some workingDir := by
    have e : 2 + env.length = ([basePath, Itoa (env.length : Int)] ++ env).length := by
      simp; omega
    rw [e, List.getElem?_append_right (le_refl _), Nat.sub_self]
    simp
  have hdrop : ([basePath, Itoa (env.length : Int)] ++ env ++ (workingDir :: tail)).drop
      (2 + env.length + 1) = tail := by
    have : 2 + env.length + 1 = ([basePath, Itoa (env.length : Int)] ++ env ++ [workingDir]).length := by
      simp; omega
    rw [this]
    have : [basePath, Itoa (env.length : Int)] ++ env ++ (workingDir :: tail)
        = ([basePath, Itoa (env.length : Int)] ++ env ++ [workingDir]) ++ tail := by simp
    rw [this, List.drop_left]
  unfold bootstrap
  rw [h0]; simp only []
  rw [h1]; simp only []
  rw [Atoi_Itoa_ofNat _ h]; simp only []
  by_cases hpos : (env.length : Int) > 0
  · simp only [hpos, if_true, Int.toNat_ofNat]
    rw [hread]
    simp only []
    rw [hwd, hdrop]
  · have hz : env = [] := by
      have : env.length = 0 := by omega
      exact List.length_eq_zero.mp this
    subst hz
    simp [NewClient]

theorem readEnv_short (args : List String) : ∀ (todo argsPointer : Nat) (env : List String),
    argsPointer ≤ args.length → args.length < argsPointer + todo →
    readEnv args todo argsPointer env = .error (args.length, args.length) := by
  intro todo
  induction todo with
  | zero => intro argsPointer env h1 h2; omega
  | succ k ih =>
    intro argsPointer env h1 h2
    by_cases hlt : argsPointer < args.length
    · have hget : args[argsPointer]? = some (args.get ⟨argsPointer, hlt⟩) := by
        simp [List.getElem?_eq_getElem hlt]
      simp only [readEnv, hget]
      exact ih (argsPointer + 1) _ (by omega) (by omega)
    · have heq : argsPointer = args.length := by omega
      subst heq
      have hget : args[args.length]? = none := by
        rw [List.getElem?_eq_none_iff]
      simp only [readEnv, hget]

/-! ## The bootstrap protocol -/

/-- C1: `main`, started on the argument list `baseData` that the `run` branch
builds, `[basePath, Itoa(len(Env)), Env..., WorkingDir, tail...]`, takes the
non-`run` branch and launches the client with the same path, env (same
order) and working directory and the same command-and-args tail, for every
path that is not the word `run`, every env list, working directory and
tail. -/
theorem bootstrap_roundtrip (PullImage : String → Except String (String × ImageConfig))
    (basePath : String) (imageConfig : ImageConfig)
    (rest : List String) (hpath : basePath ≠ "run")
    (h : imageConfig.Env.length < 2 ^ 63) :
    baseData basePath imageConfig rest
        = [basePath, Itoa (imageConfig.Env.length : Int)] ++ imageConfig.Env
            ++ (imageConfig.WorkingDir :: (if rest.length > 0 then rest else imageConfig.Cmd))
      ∧ main none PullImage (baseData basePath imageConfig rest)
        = .booted (.launched
            { basePath := basePath, env := imageConfig.Env, workingDir := imageConfig.WorkingDir }
            (if rest.length > 0 then rest else imageConfig.Cmd)) := by
  refine ⟨baseData_eq basePath imageConfig rest, ?_⟩
  have h0 : (baseData basePath imageConfig rest)[0]? = some basePath := by
    rw [baseData_eq]; simp
  unfold main
  simp only [h0, if_neg hpath]
  rw [baseData_eq]
  exact congrArg MainOutcome.booted
    (bootstrap_frame basePath imageConfig.WorkingDir imageConfig.Env _ h)

/-- Witness of C1: env of size 0, 1 and 2, with and without explicit
arguments. -/
theorem bootstrap_roundtrip_witness :
    main none (fun _ => .error "no pull") (baseData "./images/u" ⟨[], ["sh"], "/"⟩ [])
        = .booted (.launched ⟨"./images/u", [], "/"⟩ ["sh"])
      ∧ main none (fun _ => .error "no pull")
          (baseData "./images/u" ⟨["A=1"], ["sh"], "/w"⟩ ["ls", "-l", "/"])
        = .booted (.launched ⟨"./images/u", ["A=1"], "/w"⟩ ["ls", "-l", "/"])
      ∧ main none (fun _ => .error "no pull") (baseData "./images/u" ⟨["A=1", "B=2"], [], ""⟩ [])
        = .booted (.launched ⟨"./images/u", ["A=1", "B=2"], ""⟩ []) :=
  ⟨(bootstrap_roundtrip (fun _ => .error "no pull") "./images/u" ⟨[], ["sh"], "/"⟩ []
      (by decide) (by decide)).2,
   (bootstrap_roundtrip (fun _ => .error "no pull") "./images/u" ⟨["A=1"], ["sh"], "/w"⟩
      ["ls", "-l", "/"] (by decide) (by decide)).2,
   (bootstrap_roundtrip (fun _ => .error "no pull") "./images/u" ⟨["A=1", "B=2"], [], ""⟩ []
      (by decide) (by decide)).2⟩

/-- The `run` branch: after a successful pull `main` hands `createChild` the
list `baseData` built from the pulled path and config and `args[2:]`. -/
theorem main_run_branch (PullImage : String → Except String (String × ImageConfig))
    (image basePath : String) (imageConfig : ImageConfig) (rest : List String)
    (hpull : PullImage image = .ok (basePath, imageConfig)) :
    main none PullImage ("run" :: image :: rest)
      = .spawned (baseData basePath imageConfig rest) := by
  simp [main, hpull]

/-- Counterexample to C2: the count field `-1` is not a non-negative integer,
yet decoding goes on and builds a Client from the remaining arguments. -/
theorem bootstrap_negative_count_launches :
    Atoi "-1" = some (-1)
      ∧ bootstrap ["rootfs", "-1", "/wd", "sh"] = .launched ⟨"rootfs", [], "/wd"⟩ ["sh"] := by
  decide

/-- C2 (amended): when `strconv.Atoi` rejects the count field the decoder
panics with that error and builds no Client; a count that parses as zero
or a negative integer reads no env entry, takes `args[2]` as the working
directory and the rest as the command. -/
theorem bootstrap_count_field (args : List String) (basePath count : String)
    (h0 : args[0]? = some basePath) (h1 : args[1]? = some count) :
    (Atoi count = none → bootstrap args = .atoiPanic)
      ∧ (∀ n : Int, Atoi count = some n → n ≤ 0 →
          bootstrap args =
            match args[2]? with
            | none => .indexPanic 2 args.length
            | some workingDir => .launched ⟨basePath, [], workingDir⟩ (args.drop 3)) := by
  constructor
  · intro h
    simp only [bootstrap, h0, h1, h]
  · intro n h hn
    have hpos : ¬ (n > 0) := by omega
    simp only [bootstrap, h0, h1, h, hpos, if_false]
    cases args[2]? <;> rfl

/-- Witness of C2 (amended): the count fields `abc` and `-1`. -/
theorem bootstrap_count_field_witness :
    bootstrap ["rootfs", "abc", "/wd", "sh"] = .atoiPanic
      ∧ bootstrap ["rootfs", "-1", "/wd", "sh"] = .launched ⟨"rootfs", [], "/wd"⟩ ["sh"] :=
  ⟨(bootstrap_count_field ["rootfs", "abc", "/wd", "sh"] "rootfs" "abc" rfl rfl).1 (by decide),
   (bootstrap_count_field ["rootfs", "-1", "/wd", "sh"] "rootfs" "-1" rfl rfl).2 (-1)
      (by decide) (by decide)⟩

/-- Counterexample to C3: a declared count of 2 with one argument left ends in
the run-time panic `index out of range [3] with length 3`, not in a
returned failure. -/
theorem bootstrap_short_frame_panics :
    Atoi "2" = some 2 ∧ bootstrap ["rootfs", "2", "A=1"] = .indexPanic 3 3 := by
  decide

/-- C3 (amended): when the declared env count is a valid integer larger than
the number of arguments after the count field, the decoder ends in the
run-time panic `index out of range` raised by `args[argsPointer]` in the
env-reading loop at index `len(args)`; no Client is built. -/
theorem bootstrap_count_too_large (basePath count : String) (remaining : List String)
    (n : Int) (hn : Atoi count = some n) (hlen : (remaining.length : Int) < n) :
    bootstrap (basePath :: count :: remaining)
      = .indexPanic (remaining.length + 2) (remaining.length + 2) := by
  have hpos : n > 0 := by omega
  have hread := readEnv_short (basePath :: count :: remaining) n.toNat 2 []
    (by simp) (by simp only [List.length_cons]; omega)
  simp only [bootstrap, List.getElem?_cons_zero, List.getElem?_cons_succ, hn, hpos, if_true,
    hread, List.length_cons]

/-- Witness of C3 (amended): count 2 with one argument left. -/
theorem bootstrap_count_too_large_witness :
    bootstrap ["rootfs", "2", "A=1"] = .indexPanic 3 3 :=
  bootstrap_count_too_large "rootfs" "2" ["A=1"] 2 (by decide) (by decide)

/-! ## The sandbox step sequence -/

theorem Run_no_args_steps (c : Client) (Join : String → String → String) (ok : Step → Bool) :
    ∀ s ∈ (c.Run Join [] ok).steps,
      s = .sethostname "container" ∨ s = .chroot (Join "./" c.basePath) ∨ s = .chdir "/"
        ∨ s = .mkdirAll "proc" ∨ s = .mountProc ∨ s = .unshare ∨ s = .unmount "/proc" := by
  intro s hs
  simp only [Client.Run, Client.chroot, Client.mount, Client.runBody, Client.unmount,
    Trace.andThen, checked, unchecked] at hs
  cases h1 : ok (.chroot (Join "./" c.basePath)) <;> cases h2 : ok (.chdir "/")
    <;> cases h3 : ok (.mkdirAll "proc") <;> cases h4 : ok .mountProc
    <;> cases h5 : ok .unshare
    <;> simp [h1, h2, h3, h4, h5] at hs
    <;> aesop

theorem Run_all_ok_steps (c : Client) (Join : String → String → String) (ok : Step → Bool)
    (command : String) (args : List String) (hok : ∀ s, ok s = true) :
    c.Run Join (command :: args) ok =
      { steps := [.sethostname "container", .chroot (Join "./" c.basePath), .chdir "/",
          .mkdirAll "proc", .mountProc, .unshare,
          .runCommand command args c.env c.workingDir, .unmount "/proc"],
        fatal := false } := by
  simp [Client.Run, Client.chroot, Client.mount, Client.runBody, Client.unmount,
    Trace.andThen, checked, unchecked, hok]

/-- C9: the tail of `baseData` after the working directory is the explicit
arguments when there are any and the image's `Cmd` otherwise; a launch
with an empty tail makes no command call, a launch with tail
`command :: args` whose calls all succeed runs exactly that command with
the client's env and working directory. -/
theorem command_selection (basePath : String) (imageConfig : ImageConfig)
    (rest : List String) :
    (rest ≠ [] → (baseData basePath imageConfig rest).drop (3 + imageConfig.Env.length) = rest)
      ∧ (rest = [] →
          (baseData basePath imageConfig rest).drop (3 + imageConfig.Env.length)
            = imageConfig.Cmd)
      ∧ (∀ (c : Client) (Join : String → String → String) (ok : Step → Bool),
          ∀ s ∈ (c.Run Join [] ok).steps,
            ∀ (command : String) (args env : List String) (dir : String),
              s ≠ .runCommand command args env dir)
      ∧ (∀ (c : Client) (Join : String → String → String) (ok : Step → Bool)
          (command : String) (args : List String), (∀ s, ok s = true) →
          (c.Run Join (command :: args) ok).steps.filter
              (fun s => match s with | .runCommand _ _ _ _ => true | _ => false)
            = [.runCommand command args c.env c.workingDir]) := by
  have hdrop : ∀ tail : List String,
      ([basePath, Itoa (imageConfig.Env.length : Int)] ++ imageConfig.Env
          ++ (imageConfig.WorkingDir :: tail)).drop (3 + imageConfig.Env.length) = tail := by
    intro tail
    have e1 : 3 + imageConfig.Env.length
        = ([basePath, Itoa (imageConfig.Env.length : Int)] ++ imageConfig.Env
            ++ [imageConfig.WorkingDir]).length := by
      simp; omega
    have e2 : [basePath, Itoa (imageConfig.Env.length : Int)] ++ imageConfig.Env
          ++ (imageConfig.WorkingDir :: tail)
        = ([basePath, Itoa (imageConfig.Env.length : Int)] ++ imageConfig.Env
            ++ [imageConfig.WorkingDir]) ++ tail := by simp
    rw [e1, e2, List.drop_left]
  refine ⟨?_, ?_, ?_, ?_⟩
  · intro hne
    have hpos : rest.length > 0 := List.length_pos.mpr hne
    rw [baseData_eq, hdrop, if_pos hpos]
  · intro he
    subst he
    rw [baseData_eq, hdrop]
    rfl
  · intro c Join ok s hs command args env dir
    rcases Run_no_args_steps c Join ok s hs with h | h | h | h | h | h | h <;> rw [h] <;> simp
  · intro c Join ok command args hok
    rw [Run_all_ok_steps c Join ok command args hok]
    rfl

/-- Witness of C9: explicit arguments, and none with the default `Cmd`. -/
theorem command_selection_witness :
    (baseData "./images/u" ⟨["A=1"], ["sh"], "/"⟩ ["ls", "-l"]).drop (3 + 1) = ["ls", "-l"]
      ∧ (baseData "./images/u" ⟨["A=1"], ["sh"], "/"⟩ []).drop (3 + 1) = ["sh"]
      ∧ ((NewClient "images/u" "/" ["A=1"]).Run (fun _ b => b) ["sh"]
            (fun _ => true)).steps.filter
            (fun s => match s with | .runCommand _ _ _ _ => true | _ => false)
          = [.runCommand "sh" [] ["A=1"] "/"] :=
  ⟨(command_selection "./images/u" ⟨["A=1"], ["sh"], "/"⟩ ["ls", "-l"]).1 (by decide),
   (command_selection "./images/u" ⟨["A=1"], ["sh"], "/"⟩ []).2.1 rfl,
   (command_selection "./images/u" ⟨["A=1"], ["sh"], "/"⟩ []).2.2.2
      (NewClient "images/u" "/" ["A=1"]) (fun _ b => b) (fun _ => true) "sh" []
      (fun _ => rfl)⟩

/-- C8 (failing input): every set-up call succeeds and the launched command
fails; the run reaches the proc mount, ends in `log.Fatal` right after the
command, and the unmount is never called. -/
theorem Run_command_failure_skips_unmount :
    (Client.Run ⟨"images/u", ["A=1"], "/"⟩ (fun _ b => b) ["false"]
        (fun s => match s with | .runCommand _ _ _ _ => false | _ => true))
      = { steps := [.sethostname "container", .chroot "images/u", .chdir "/",
            .mkdirAll "proc", .mountProc, .unshare, .runCommand "false" [] ["A=1"] "/"],
          fatal := true }
      ∧ unmountCount (Client.Run ⟨"images/u", ["A=1"], "/"⟩ (fun _ b => b) ["false"]
          (fun s => match s with | .runCommand _ _ _ _ => false | _ => true)).steps = 0
      ∧ unmountCount (Client.Run ⟨"images/u", ["A=1"], "/"⟩ (fun _ b => b) ["true"]
          (fun _ => true)).steps = 1 := by
  decide

/-- C10 (failing input): `Sethostname` fails and every other call succeeds;
its result is discarded, so the root change, the mount and the command are
all performed and the run ends normally. -/
theorem Run_ignores_sethostname_failure :
    (Client.Run ⟨"images/u", ["A=1"], "/"⟩ (fun _ b => b) ["sh"]
        (fun s => match s with | .sethostname _ => false | _ => true))
      = { steps := [.sethostname "container", .chroot "images/u", .chdir "/",
            .mkdirAll "proc", .mountProc, .unshare, .runCommand "sh" [] ["A=1"] "/",
            .unmount "/proc"],
          fatal := false } := by
  decide

/-! ## Platform selection -/

theorem scanManifests_first (curOs curArch tag : String) :
    ∀ (pre : List Manifest) (m : Manifest) (post : List Manifest),
      (∀ x ∈ pre, ¬ (x.Platform.Architecture = curArch ∧ x.Platform.OS = curOs)) →
      (m.Platform.Architecture = curArch ∧ m.Platform.OS = curOs) →
      scanManifests curOs curArch tag (pre ++ m :: post) = (m.Digest, m.MediaType) := by
  intro pre
  induction pre with
  | nil =>
    intro m post _ hm
    simp [scanManifests, hm]
  | cons x xs ih =>
    intro m post hpre hm
    have hx := hpre x (List.mem_cons_self x xs)
    simp only [List.cons_append, scanManifests, if_neg hx]
    exact ih m post (fun y hy => hpre y (List.mem_cons_of_mem x hy)) hm

theorem scanManifests_none (curOs curArch tag : String) :
    ∀ manifests : List Manifest,
      (∀ x ∈ manifests, ¬ (x.Platform.Architecture = curArch ∧ x.Platform.OS = curOs)) →
      scanManifests curOs curArch tag manifests = (tag, manifestMediaType) := by
  intro manifests
  induction manifests with
  | nil => intro _; rfl
  | cons x xs ih =>
    intro h
    have hx := h x (List.mem_cons_self x xs)
    simp only [scanManifests, if_neg hx]
    exact ih (fun y hy => h y (List.mem_cons_of_mem x hy))

/-- C5: once the manifest list is fetched and decoded, `getShaTagForCurrentOS`
returns the digest and media type of the first entry, in list order, whose
platform architecture and os equal the host's; with no such entry (the
empty list included) it returns the requested tag with the manifest media
type, without an error. -/
theorem platform_selection (curOs curArch : String)
    (fetchManifest : String → String → String → String → Except String String)
    (unmarshalList : String → Except String ImageManifestList)
    (imageDetail : ImageDetail) (data : String) (manifestList : ImageManifestList)
    (hfetch : fetchManifest imageDetail.base imageDetail.image imageDetail.tag
      manifestMediaType = .ok data)
    (hdecode : unmarshalList data = .ok manifestList) :
    (∀ (pre : List Manifest) (m : Manifest) (post : List Manifest),
        manifestList.Manifests = pre ++ m :: post →
        (∀ x ∈ pre, ¬ (x.Platform.Architecture = curArch ∧ x.Platform.OS = curOs)) →
        (m.Platform.Architecture = curArch ∧ m.Platform.OS = curOs) →
        getShaTagForCurrentOS curOs curArch fetchManifest unmarshalList imageDetail
          = .ok (m.Digest, m.MediaType))
      ∧ ((∀ x ∈ manifestList.Manifests,
            ¬ (x.Platform.Architecture = curArch ∧ x.Platform.OS = curOs)) →
        getShaTagForCurrentOS curOs curArch fetchManifest unmarshalList imageDetail
          = .ok (imageDetail.tag, manifestMediaType)) := by
  constructor
  · intro pre m post hsplit hpre hm
    simp only [getShaTagForCurrentOS, hfetch, hdecode, hsplit]
    rw [scanManifests_first curOs curArch imageDetail.tag pre m post hpre hm]
  · intro hnone
    simp only [getShaTagForCurrentOS, hfetch, hdecode]
    rw [scanManifests_none curOs curArch imageDetail.tag manifestList.Manifests hnone]

/-- Witness of C5: entries for linux/amd64 and linux/arm64 on a linux/amd64
host, and the same list on a host no entry matches. -/
theorem platform_selection_witness :
    getShaTagForCurrentOS "linux" "amd64" (fun _ _ _ _ => .ok "doc")
        (fun _ => .ok ⟨[⟨"sha256:a", "type/a", 1, ⟨"amd64", "linux"⟩⟩,
          ⟨"sha256:b", "type/b", 2, ⟨"arm64", "linux"⟩⟩], "list", 2⟩)
        ⟨"library", "alpine", "latest"⟩
        = .ok ("sha256:a", "type/a")
      ∧ getShaTagForCurrentOS "linux" "riscv64" (fun _ _ _ _ => .ok "doc")
        (fun _ => .ok ⟨[⟨"sha256:a", "type/a", 1, ⟨"amd64", "linux"⟩⟩,
          ⟨"sha256:b", "type/b", 2, ⟨"arm64", "linux"⟩⟩], "list", 2⟩)
        ⟨"library", "alpine", "latest"⟩
        = .ok ("latest", manifestMediaType) :=
  ⟨(platform_selection "linux" "amd64" (fun _ _ _ _ => .ok "doc")
      (fun _ => .ok ⟨[⟨"sha256:a", "type/a", 1, ⟨"amd64", "linux"⟩⟩,
        ⟨"sha256:b", "type/b", 2, ⟨"arm64", "linux"⟩⟩], "list", 2⟩)
      ⟨"library", "alpine", "latest"⟩ "doc" _ rfl rfl).1
      [] ⟨"sha256:a", "type/a", 1, ⟨"amd64", "linux"⟩⟩
      [⟨"sha256:b", "type/b", 2, ⟨"arm64", "linux"⟩⟩] rfl (by simp) (by decide),
   (platform_selection "linux" "riscv64" (fun _ _ _ _ => .ok "doc")
      (fun _ => .ok ⟨[⟨"sha256:a", "type/a", 1, ⟨"amd64", "linux"⟩⟩,
        ⟨"sha256:b", "type/b", 2, ⟨"arm64", "linux"⟩⟩], "list", 2⟩)
      ⟨"library", "alpine", "latest"⟩ "doc" _ rfl rfl).2 (by decide)⟩

/-! ## Image references -/

theorem splitOnChar_ne_nil (sep : Char) (l : List Char) : splitOnChar sep l ≠ [] := by
  cases l with
  | nil => simp [splitOnChar]
  | cons c cs =>
    simp only [splitOnChar]
    split
    · simp
    · split <;> simp

theorem splitOnChar_of_not_mem (sep : Char) : ∀ l : List Char, sep ∉ l →
    splitOnChar sep l = [l] := by
  intro l
  induction l with
  | nil => intro _; rfl
  | cons c cs ih =>
    intro h
    have hc : c ≠ sep := fun e => h (e ▸ List.mem_cons_self c cs)
    have hcs : sep ∉ cs := fun e => h (List.mem_cons_of_mem c e)
    simp only [splitOnChar, if_neg hc, ih hcs]

theorem splitOnChar_append_sep (sep : Char) : ∀ (x r : List Char), sep ∉ x →
    splitOnChar sep (x ++ sep :: r) = x :: splitOnChar sep r := by
  intro x
  induction x with
  | nil => intro r _; simp [splitOnChar]
  | cons c cs ih =>
    intro r h
    have hc : c ≠ sep := fun e => h (e ▸ List.mem_cons_self c cs)
    have hcs : sep ∉ cs := fun e => h (List.mem_cons_of_mem c e)
    rw [List.cons_append, splitOnChar, if_neg hc, ih r hcs]

theorem first_sep (sep : Char) : ∀ l : List Char,
    sep ∉ l ∨ ∃ x r, sep ∉ x ∧ l = x ++ sep :: r := by
  intro l
  induction l with
  | nil => left; simp
  | cons c cs ih =>
    by_cases hc : c = sep
    · right; exact ⟨[], cs, by simp, by simp [hc]⟩
    · rcases ih with h | ⟨x, r, hx, hl⟩
      · left
        intro hmem
        rcases List.mem_cons.mp hmem with e | e
        · exact hc e.symm
        · exact h e
      · right
        refine ⟨c :: x, r, ?_, by simp [hl]⟩
        intro hmem
        rcases List.mem_cons.mp hmem with e | e
        · exact hc e.symm
        · exact hx e

theorem str_eq_empty_iff (s : String) : s = "" ↔ s.data = [] := by
  constructor
  · intro h; rw [h]
  · intro h; exact String.ext h

theorem Split_of_not_mem (s : String) (sep : Char) (h : sep ∉ s.data) : Split s sep = [s] := by
  simp [Split, splitOnChar_of_not_mem sep s.data h]

theorem Split_append_sep (x r : String) (sep : Char) (h : sep ∉ x.data) :
    Split (x ++ String.singleton sep ++ r) sep = x :: Split r sep := by
  have e : (x ++ String.singleton sep ++ r).data = x.data ++ sep :: r.data := by
    simp [String.data_append, String.singleton]
  simp [Split, e, splitOnChar_append_sep sep x.data r.data h]

theorem Split_ne_nil (s : String) (sep : Char) : Split s sep ≠ [] := by
  simp [Split, splitOnChar_ne_nil]

theorem splitNameAndTag_no_colon (c : String) (h : ':' ∉ c.data) :
    splitNameAndTag c = (c, "latest") := by
  simp [splitNameAndTag, Split_of_not_mem c ':' h]

theorem splitNameAndTag_one_colon (x y : String) (hx : ':' ∉ x.data) (hy : ':' ∉ y.data) :
    splitNameAndTag (x ++ ":" ++ y) = (x, y) := by
  have e := Split_append_sep x y ':' hx
  have e2 : String.singleton ':' = ":" := rfl
  rw [e2, Split_of_not_mem y ':' hy] at e
  simp [splitNameAndTag, e]

theorem splitNameAndTag_more_colons (x y : String) (hx : ':' ∉ x.data) (hy : ':' ∈ y.data) :
    splitNameAndTag (x ++ ":" ++ y) = (x, "latest") := by
  have e := Split_append_sep x y ':' hx
  have e2 : String.singleton ':' = ":" := rfl
  rw [e2] at e
  rcases first_sep ':' y.data with h | ⟨a, b, ha, hab⟩
  · exact absurd hy h
  · have hy2 : y = String.mk a ++ String.singleton ':' ++ String.mk b := by
      apply String.ext; simp [String.data_append, String.singleton, hab]
    have e3 := Split_append_sep (String.mk a) (String.mk b) ':' ha
    rw [← hy2] at e3
    rw [e3] at e
    have hlen : (x :: String.mk a :: Split (String.mk b) ':').length ≠ 2 := by
      have := Split_ne_nil (String.mk b) ':'
      cases hs : Split (String.mk b) ':' with
      | nil => exact absurd hs this
      | cons p q => simp
    simp only [splitNameAndTag, e, if_neg hlen]
    simp

theorem parseImageDetail_no_slash (s : String) (hs : s ≠ "") (h : '/' ∉ s.data) :
    parseImageDetail s
      = .ok { base := libraryImage, image := (splitNameAndTag s).1,
              tag := (splitNameAndTag s).2 } := by
  have hlen : ¬ (s.length = 0) := by
    intro e
    apply hs
    exact (str_eq_empty_iff s).mpr (List.length_eq_zero.mp e)
  simp [parseImageDetail, hlen, Split_of_not_mem s '/' h]

theorem parseImageDetail_slash (ns c rest : String) (hns : '/' ∉ ns.data)
    (hc : '/' ∉ c.data) (hrest : rest = "" ∨ ∃ r : String, rest = "/" ++ r) :
    parseImageDetail (ns ++ "/" ++ c ++ rest)
      = .ok { base := ns, image := (splitNameAndTag c).1, tag := (splitNameAndTag c).2 } := by
  have e2 : String.singleton '/' = "/" := rfl
  have hsplit : ∃ more, Split (ns ++ "/" ++ c ++ rest) '/' = ns :: c :: more := by
    have e := Split_append_sep ns (c ++ rest) '/' hns
    rw [e2] at e
    have eassoc : ns ++ "/" ++ (c ++ rest) = ns ++ "/" ++ c ++ rest := by
      apply String.ext; simp [String.data_append]
    rw [eassoc] at e
    rcases hrest with h | ⟨r, h⟩
    · subst h
      have : c ++ "" = c := by apply String.ext; simp [String.data_append]
      rw [this, Split_of_not_mem c '/' hc] at e
      exact ⟨[], e⟩
    · subst h
      have e3 := Split_append_sep c r '/' hc
      rw [e2] at e3
      have : c ++ ("/" ++ r) = c ++ "/" ++ r := by apply String.ext; simp [String.data_append]
      rw [this, e3] at e
      exact ⟨_, e⟩
  obtain ⟨more, hm⟩ := hsplit
  have hlen : ¬ ((ns ++ "/" ++ c ++ rest).length = 0) := by
    intro e
    have h0 : (ns ++ "/" ++ c ++ rest).data = [] := List.length_eq_zero.mp e
    have h1 : (ns ++ "/" ++ c ++ rest).data = ns.data ++ '/' :: (c.data ++ rest.data) := by
      simp [String.data_append]
    rw [h1] at h0
    simp at h0
  have hl1 : ¬ ((ns :: c :: more).length = 1) := by simp
  unfold parseImageDetail
  rw [if_neg hlen]
  simp only [hm, if_neg hl1]
  rfl

theorem first_sep_unique (sep : Char) : ∀ (a a1 b b1 : List Char), sep ∉ a → sep ∉ a1 →
    a ++ sep :: b = a1 ++ sep :: b1 → a = a1 ∧ b = b1 := by
  intro a
  induction a with
  | nil =>
    intro a1 b b1 _ h1 he
    cases a1 with
    | nil => simp at he; exact ⟨rfl, he⟩
    | cons x xs =>
      simp at he
      exact absurd (he.1 ▸ List.mem_cons_self x xs) h1
  | cons y ys ih =>
    intro a1 b b1 h h1 he
    cases a1 with
    | nil =>
      simp at he
      exact absurd (he.1 ▸ List.mem_cons_self y ys) h
    | cons x xs =>
      simp only [List.cons_append, List.cons.injEq] at he
      have hys : sep ∉ ys := fun e => h (List.mem_cons_of_mem y e)
      have hxs : sep ∉ xs := fun e => h1 (List.mem_cons_of_mem x e)
      obtain ⟨r1, r2⟩ := ih xs b b1 hys hxs he.2
      exact ⟨by rw [he.1, r1], r2⟩

theorem str_of_data (c : String) (a b : List Char) (sep : Char) (h : c.data = a ++ sep :: b) :
    c = String.mk a ++ String.singleton sep ++ String.mk b := by
  apply String.ext
  simp [String.data_append, String.singleton, h]

theorem splitNameAndTag_image_ne (c : String) :
    (splitNameAndTag c).1 ≠ "" ↔ (c ≠ "" ∧ c.data.head? ≠ some ':') := by
  rcases first_sep ':' c.data with h | ⟨a, b, ha, hab⟩
  · rw [splitNameAndTag_no_colon c h]
    constructor
    · intro hc
      refine ⟨hc, ?_⟩
      intro hh
      exact h (List.mem_of_mem_head? hh)
    · intro hc; exact hc.1
  · have hc := str_of_data c a b ':' hab
    have e2 : String.singleton ':' = ":" := rfl
    rw [e2] at hc
    have h1 : (splitNameAndTag c).1 = String.mk a := by
      rw [hc]
      by_cases hb : ':' ∈ b
      · rw [splitNameAndTag_more_colons (String.mk a) (String.mk b) ha hb]
      · rw [splitNameAndTag_one_colon (String.mk a) (String.mk b) ha hb]
    rw [h1, hab]
    have hne : c ≠ "" := by
      intro e
      have := (str_eq_empty_iff c).mp e
      rw [hab] at this
      simp at this
    cases a with
    | nil => simp
    | cons x xs =>
      have hx : x ≠ ':' := fun e => ha (e ▸ List.mem_cons_self x xs)
      constructor
      · intro _
        exact ⟨hne, by simpa using hx⟩
      · intro _ e
        have := (str_eq_empty_iff _).mp e
        simp at this

theorem splitNameAndTag_tag_empty (c : String) :
    (splitNameAndTag c).2 = "" ↔ ∃ x : String, ':' ∉ x.data ∧ c = x ++ ":" := by
  rcases first_sep ':' c.data with h | ⟨a, b, ha, hab⟩
  · rw [splitNameAndTag_no_colon c h]
    constructor
    · intro e
      have e1 : "latest" = "" := e
      exact absurd e1 (by decide)
    · rintro ⟨x, _, hx⟩
      exfalso
      apply h
      rw [hx]
      simp [String.data_append]
  · have hc := str_of_data c a b ':' hab
    have e2 : String.singleton ':' = ":" := rfl
    rw [e2] at hc
    have hback : (∃ x : String, ':' ∉ x.data ∧ c = x ++ ":") → b = [] := by
      rintro ⟨x, hx, hcx⟩
      have hd : c.data = x.data ++ ':' :: [] := by rw [hcx]; simp [String.data_append]
      rw [hab] at hd
      exact (first_sep_unique ':' a x.data b [] ha hx hd).2
    by_cases hb : ':' ∈ b
    · have h2 : (splitNameAndTag c).2 = "latest" := by
        rw [hc, splitNameAndTag_more_colons (String.mk a) (String.mk b) ha hb]
      rw [h2]
      constructor
      · intro e; exact absurd e (by decide)
      · intro hx
        have := hback hx
        rw [this] at hb
        simp at hb
    · have h2 : (splitNameAndTag c).2 = String.mk b := by
        rw [hc, splitNameAndTag_one_colon (String.mk a) (String.mk b) ha hb]
      rw [h2]
      constructor
      · intro e
        have hbn : b = [] := (str_eq_empty_iff _).mp e
        refine ⟨String.mk a, ha, ?_⟩
        rw [hc, hbn]
        apply String.ext
        simp [String.data_append]
      · intro hx
        rw [hback hx]

theorem str_append_empty (c : String) : c ++ "" = c := by
  apply String.ext
  simp [String.data_append]

/-- C6: a non-empty reference without `/` parses with namespace `library`; a
reference whose image component has no `:` gets tag `latest` and that
component as image name, with or without a namespace; `x:y` parses to
image `x` and tag `y`. -/
theorem parseImageDetail_defaults :
    (∀ s : String, s ≠ "" → '/' ∉ s.data →
        ∃ d, parseImageDetail s = .ok d ∧ d.base = "library")
      ∧ (∀ c : String, c ≠ "" → '/' ∉ c.data → ':' ∉ c.data →
        parseImageDetail c = .ok { base := "library", image := c, tag := "latest" })
      ∧ (∀ ns c : String, '/' ∉ ns.data → '/' ∉ c.data → ':' ∉ c.data →
        parseImageDetail (ns ++ "/" ++ c) = .ok { base := ns, image := c, tag := "latest" })
      ∧ (∀ x y : String, ':' ∉ x.data → '/' ∉ x.data → ':' ∉ y.data → '/' ∉ y.data →
        parseImageDetail (x ++ ":" ++ y) = .ok { base := "library", image := x, tag := y }) := by
  refine ⟨?_, ?_, ?_, ?_⟩
  · intro s hs h
    exact ⟨_, parseImageDetail_no_slash s hs h, rfl⟩
  · intro c hc h1 h2
    rw [parseImageDetail_no_slash c hc h1, splitNameAndTag_no_colon c h2]
    rfl
  · intro ns c h1 h2 h3
    have := parseImageDetail_slash ns c "" h1 h2 (Or.inl rfl)
    rw [str_append_empty, splitNameAndTag_no_colon c h3] at this
    exact this
  · intro x y hx1 hx2 hy1 hy2
    have hne : x ++ ":" ++ y ≠ "" := by
      intro e
      have := (str_eq_empty_iff _).mp e
      simp [String.data_append] at this
    have hns : '/' ∉ (x ++ ":" ++ y).data := by
      simp only [String.data_append, List.mem_append, not_or]
      exact ⟨⟨hx2, by decide⟩, hy2⟩
    rw [parseImageDetail_no_slash _ hne hns, splitNameAndTag_one_colon x y hx1 hy1]
    rfl

/-- Witness of C6: `alpine`, `ns/img` and `x:y`. -/
theorem parseImageDetail_defaults_witness :
    (∃ d, parseImageDetail "alpine:3" = .ok d ∧ d.base = "library")
      ∧ parseImageDetail "alpine" = .ok { base := "library", image := "alpine", tag := "latest" }
      ∧ parseImageDetail ("ns" ++ "/" ++ "img")
        = .ok { base := "ns", image := "img", tag := "latest" }
      ∧ parseImageDetail ("x" ++ ":" ++ "y") = .ok { base := "library", image := "x", tag := "y" } :=
  ⟨parseImageDetail_defaults.1 "alpine:3" (by decide) (by decide),
   parseImageDetail_defaults.2.1 "alpine" (by decide) (by decide) (by decide),
   parseImageDetail_defaults.2.2.1 "ns" "img" (by decide) (by decide) (by decide),
   parseImageDetail_defaults.2.2.2 "x" "y" (by decide) (by decide) (by decide) (by decide)⟩

/-- Counterexample to C7: `x:` parses with an empty tag, and `:y`, `/` and
`ns/` parse with an empty image name. -/
theorem parseImageDetail_empty_fields :
    parseImageDetail "x:" = .ok { base := "library", image := "x", tag := "" }
      ∧ parseImageDetail ":y" = .ok { base := "library", image := "", tag := "y" }
      ∧ parseImageDetail "/" = .ok { base := "", image := "", tag := "latest" }
      ∧ parseImageDetail "ns/" = .ok { base := "ns", image := "", tag := "latest" } := by
  decide

/-- C7 (amended): every non-empty reference parses.  With `c` the image
component (the whole reference when it has no `/`, else the text between
the first `/` and the next one or the end), the image name is non-empty
exactly when `c` is non-empty and does not start with `:`, and the tag is
empty exactly when `c` is some `x` without `:` followed by one final `:`. -/
theorem parseImageDetail_nonempty_fields :
    (∀ s : String, s ≠ "" → ∃ d, parseImageDetail s = .ok d)
      ∧ (∀ c : String, c ≠ "" → '/' ∉ c.data →
        ∃ d, parseImageDetail c = .ok d
          ∧ (d.image ≠ "" ↔ c.data.head? ≠ some ':')
          ∧ (d.tag = "" ↔ ∃ x : String, ':' ∉ x.data ∧ c = x ++ ":"))
      ∧ (∀ ns c rest : String, '/' ∉ ns.data → '/' ∉ c.data →
        (rest = "" ∨ ∃ r : String, rest = "/" ++ r) →
        ∃ d, parseImageDetail (ns ++ "/" ++ c ++ rest) = .ok d
          ∧ (d.image ≠ "" ↔ (c ≠ "" ∧ c.data.head? ≠ some ':'))
          ∧ (d.tag = "" ↔ ∃ x : String, ':' ∉ x.data ∧ c = x ++ ":")) := by
  refine ⟨?_, ?_, ?_⟩
  · intro s hs
    have hlen : ¬ (s.length = 0) := by
      intro e
      exact hs ((str_eq_empty_iff s).mpr (List.length_eq_zero.mp e))
    unfold parseImageDetail
    rw [if_neg hlen]
    simp only []
    split
    · exact ⟨_, rfl⟩
    · exact ⟨_, rfl⟩
  · intro c hc h
    refine ⟨_, parseImageDetail_no_slash c hc h, ?_, ?_⟩
    · show (splitNameAndTag c).1 ≠ "" ↔ _
      rw [splitNameAndTag_image_ne]
      constructor
      · intro hh; exact hh.2
      · intro hh; exact ⟨hc, hh⟩
    · exact splitNameAndTag_tag_empty c
  · intro ns c rest h1 h2 hrest
    exact ⟨_, parseImageDetail_slash ns c rest h1 h2 hrest,
      splitNameAndTag_image_ne c, splitNameAndTag_tag_empty c⟩

/-- Witness of C7 (amended): `x:y:z` has image `x` and tag `latest`, both
non-empty, and `ns/img:1` has a non-empty image name. -/
theorem parseImageDetail_nonempty_fields_witness :
    (∃ d, parseImageDetail "x:y:z" = .ok d)
      ∧ (∃ d, parseImageDetail "x:y:z" = .ok d
          ∧ (d.image ≠ "" ↔ "x:y:z".data.head? ≠ some ':')
          ∧ (d.tag = "" ↔ ∃ x : String, ':' ∉ x.data ∧ "x:y:z" = x ++ ":"))
      ∧ (∃ d, parseImageDetail ("ns" ++ "/" ++ "img:1" ++ "") = .ok d
          ∧ (d.image ≠ "" ↔ ("img:1" ≠ "" ∧ "img:1".data.head? ≠ some ':'))
          ∧ (d.tag = "" ↔ ∃ x : String, ':' ∉ x.data ∧ "img:1" = x ++ ":")) :=
  ⟨parseImageDetail_nonempty_fields.1 "x:y:z" (by decide),
   parseImageDetail_nonempty_fields.2.1 "x:y:z" (by decide) (by decide),
   parseImageDetail_nonempty_fields.2.2 "ns" "img:1" "" (by decide) (by decide) (Or.inl rfl)⟩

/-! ## Layer extraction -/

theorem FS_set_same (fs : FS) (loc : Loc) (n : Node) : fs.set loc n loc = some n := by
  simp [FS.set]

theorem FS_set_other (fs : FS) (loc q : Loc) (n : Node) (h : q ≠ loc) :
    fs.set loc n q = fs q := by
  simp [FS.set, h]

theorem regular_ne_dir (t : Char) (h : t = TypeReg ∨ t = TypeRegA) : t ≠ TypeDir := by
  rcases h with h | h <;> rw [h] <;> decide

/-- The walk of `os.MkdirAll` changes nothing that is already there. -/
theorem mkdirFrom_keeps (p : Loc) (n : Node) : ∀ (names : List String) (fs : FS) (done : Loc),
    fs p = some n → (mkdirFrom fs done names).2 p = some n := by
  intro names
  induction names with
  | nil => intro fs done hp; exact hp
  | cons name more ih =>
    intro fs done hp
    simp only [mkdirFrom]
    cases hn : fs (done ++ [name]) with
    | none =>
      simp only []
      apply ih
      have hne : p ≠ done ++ [name] := by
        intro e; rw [e, hn] at hp; exact absurd hp (by simp)
      rw [FS_set_other _ _ _ _ hne]; exact hp
    | some node =>
      cases node with
      | dir => simp only []; exact ih fs _ hp
      | file content => exact hp

theorem MkdirAll_keeps (osErr : Nat → Option String) (cwd : Loc) (fs : FS) (k : Nat)
    (path : String) (p : Loc) (n : Node) (hp : fs p = some n) :
    (MkdirAll osErr cwd fs k path).2 p = some n := by
  unfold MkdirAll
  cases osErr k with
  | some err => exact hp
  | none => exact mkdirFrom_keeps p n _ fs [] hp

theorem Create_ok (osErr : Nat → Option String) (cwd : Loc) (fs fs1 : FS) (k : Nat)
    (path : String) (h : Create osErr cwd fs k path = (none, fs1)) :
    fs1 = fs.set (resolve cwd path) (.file "") := by
  unfold Create at h
  split at h
  · exact absurd (congrArg Prod.fst h) (by simp)
  · split at h
    · exact absurd (congrArg Prod.fst h) (by simp)
    · split at h
      · exact (Prod.mk.inj h).2.symm
      · exact absurd (congrArg Prod.fst h) (by simp)
      · exact absurd (congrArg Prod.fst h) (by simp)

theorem Copy_ok (osErr : Nat → Option String) (cwd : Loc) (fs fs1 : FS) (k : Nat)
    (path body : String) (h : Copy osErr cwd fs k path body = (none, fs1)) :
    fs1 = fs.set (resolve cwd path) (.file body) := by
  unfold Copy at h
  split at h
  · exact absurd (congrArg Prod.fst h) (by simp)
  · exact (Prod.mk.inj h).2.symm

/-- One successful turn of the `extractLayer` loop: the rest of the loop runs
on a disk that keeps every regular file the entry does not write, and that
holds the body of a regular entry at its location. -/
theorem extractEntries_cons_ok (Join : String → String → String) (cwd : Loc)
    (osErr : Nat → Option String) (dir : String)
    (failure : Option String) (header : TarEntry) (more : List TarEntry) (fs fs2 : FS)
    (k k2 : Nat)
    (h : extractEntries Join cwd osErr dir failure (header :: more) fs k = (none, fs2, k2)) :
    ∃ fs1 k1, extractEntries Join cwd osErr dir failure more fs1 k1 = (none, fs2, k2)
      ∧ (∀ p c, fs p = some (.file c) →
          ((header.Typeflag = TypeReg ∨ header.Typeflag = TypeRegA) →
            resolve cwd (Join dir header.Name) ≠ p) →
          fs1 p = some (.file c))
      ∧ ((header.Typeflag = TypeReg ∨ header.Typeflag = TypeRegA) →
          fs1 (resolve cwd (Join dir header.Name)) = some (.file header.body)) := by
  simp only [extractEntries] at h
  by_cases hd : header.Typeflag = TypeDir
  · rw [if_pos hd] at h
    have hnr : ¬ (header.Typeflag = TypeReg ∨ header.Typeflag = TypeRegA) :=
      fun hr => regular_ne_dir _ hr hd
    cases hm : MkdirAll osErr cwd fs k (Join dir header.Name) with
    | mk r fs1 =>
      rw [hm] at h
      cases r with
      | some err => exact absurd (congrArg Prod.fst h) (by simp)
      | none =>
        refine ⟨fs1, k + 1, h, ?_, fun hr => absurd hr hnr⟩
        intro p c hp _
        have := MkdirAll_keeps osErr cwd fs k (Join dir header.Name) p _ hp
        rw [hm] at this
        exact this
  · rw [if_neg hd] at h
    by_cases hr : header.Typeflag = TypeReg ∨ header.Typeflag = TypeRegA
    · rw [if_pos hr] at h
      cases hc : Create osErr cwd fs k (Join dir header.Name) with
      | mk r fs1 =>
        rw [hc] at h
        cases r with
        | some err => exact absurd (congrArg Prod.fst h) (by simp)
        | none =>
          simp only [] at h
          cases hw : Copy osErr cwd fs1 (k + 1) (Join dir header.Name) header.body with
          | mk r2 fs3 =>
            rw [hw] at h
            cases r2 with
            | some err => exact absurd (congrArg Prod.fst h) (by simp)
            | none =>
              simp only [] at h
              cases hch : Chmod osErr (k + 2) with
              | some err => rw [hch] at h; exact absurd (congrArg Prod.fst h) (by simp)
              | none =>
                rw [hch] at h
                simp only [] at h
                have e1 := Create_ok osErr cwd fs fs1 k _ hc
                have e3 := Copy_ok osErr cwd fs1 fs3 (k + 1) _ _ hw
                refine ⟨fs3, k + 3, h, ?_, ?_⟩
                · intro p c hp hne
                  have hne1 : p ≠ resolve cwd (Join dir header.Name) := fun e => hne hr e.symm
                  rw [e3, FS_set_other _ _ _ _ hne1, e1, FS_set_other _ _ _ _ hne1]
                  exact hp
                · intro _
                  rw [e3, FS_set_same]
    · rw [if_neg hr] at h
      exact ⟨fs, k, h, fun p c hp _ => hp, fun hr1 => absurd hr1 hr⟩

theorem extractEntries_keeps (Join : String → String → String) (cwd : Loc)
    (osErr : Nat → Option String) (dir : String)
    (failure : Option String) (p : Loc) (c : String) :
    ∀ (entries : List TarEntry) (fs fs2 : FS) (k k2 : Nat),
    extractEntries Join cwd osErr dir failure entries fs k = (none, fs2, k2) →
    fs p = some (.file c) →
    (∀ e ∈ entries, (e.Typeflag = TypeReg ∨ e.Typeflag = TypeRegA) →
      resolve cwd (Join dir e.Name) ≠ p) →
    fs2 p = some (.file c) := by
  intro entries
  induction entries with
  | nil =>
    intro fs fs2 k k2 h hp _
    simp only [extractEntries] at h
    rw [← (Prod.mk.inj (Prod.mk.inj h).2).1]; exact hp
  | cons header more ih =>
    intro fs fs2 k k2 h hp hno
    obtain ⟨fs1, k1, hrun, hkeep, _⟩ :=
      extractEntries_cons_ok Join cwd osErr dir failure header more fs fs2 k k2 h
    exact ih fs1 fs2 k1 k2 hrun (hkeep p c hp (hno header (List.mem_cons_self _ _)))
      (fun e he => hno e (List.mem_cons_of_mem _ he))

theorem extractEntries_writes (Join : String → String → String) (cwd : Loc)
    (osErr : Nat → Option String) (dir : String)
    (failure : Option String) (e : TarEntry) (epost : List TarEntry)
    (hreg : e.Typeflag = TypeReg ∨ e.Typeflag = TypeRegA)
    (hlast : ∀ e1 ∈ epost, (e1.Typeflag = TypeReg ∨ e1.Typeflag = TypeRegA) →
      resolve cwd (Join dir e1.Name) ≠ resolve cwd (Join dir e.Name)) :
    ∀ (epre : List TarEntry) (fs fs2 : FS) (k k2 : Nat),
    extractEntries Join cwd osErr dir failure (epre ++ e :: epost) fs k = (none, fs2, k2) →
    fs2 (resolve cwd (Join dir e.Name)) = some (.file e.body) := by
  intro epre
  induction epre with
  | nil =>
    intro fs fs2 k k2 h
    obtain ⟨fs1, k1, hrun, _, hw⟩ :=
      extractEntries_cons_ok Join cwd osErr dir failure e epost fs fs2 k k2 h
    exact extractEntries_keeps Join cwd osErr dir failure _ _ epost fs1 fs2 k1 k2 hrun
      (hw hreg) hlast
  | cons header more ih =>
    intro fs fs2 k k2 h
    obtain ⟨fs1, k1, hrun, _, _⟩ :=
      extractEntries_cons_ok Join cwd osErr dir failure header (more ++ e :: epost) fs fs2 k k2 h
    exact ih fs1 fs2 k1 k2 hrun

/-- One successful turn of the `fetchLayers` loop. -/
theorem fetchLayersLoop_cons_ok (Join : String → String → String) (cwd : Loc)
    (osErr : Nat → Option String)
    (fetchLayerData : Manifest → Except String String)
    (gunzip : String → Except String TarStream) (dir : String)
    (layer : Manifest) (more : List Manifest) (fs fs2 : FS) (k k2 : Nat)
    (h : fetchLayersLoop Join cwd osErr fetchLayerData gunzip dir (layer :: more) fs k
      = (none, fs2, k2)) :
    ∃ data zipped fs1 k1, fetchLayerData layer = .ok data ∧ gunzip data = .ok zipped
      ∧ extractLayer Join cwd osErr dir zipped fs k = (none, fs1, k1)
      ∧ fetchLayersLoop Join cwd osErr fetchLayerData gunzip dir more fs1 k1
        = (none, fs2, k2) := by
  simp only [fetchLayersLoop] at h
  cases hf : fetchLayerData layer with
  | error err => rw [hf] at h; exact absurd (congrArg Prod.fst h) (by simp)
  | ok data =>
    rw [hf] at h
    simp only [] at h
    cases hg : gunzip data with
    | error err => rw [hg] at h; exact absurd (congrArg Prod.fst h) (by simp)
    | ok zipped =>
      rw [hg] at h
      simp only [] at h
      cases hx : extractLayer Join cwd osErr dir zipped fs k with
      | mk r rest =>
        cases rest with
        | mk fs1 k1 =>
          rw [hx] at h
          cases r with
          | some err => exact absurd (congrArg Prod.fst h) (by simp)
          | none => exact ⟨data, zipped, fs1, k1, rfl, hg, hx, h⟩

theorem fetchLayersLoop_keeps (Join : String → String → String) (cwd : Loc)
    (osErr : Nat → Option String)
    (fetchLayerData : Manifest → Except String String)
    (gunzip : String → Except String TarStream) (dir : String) (p : Loc) (c : String) :
    ∀ (layers : List Manifest) (fs fs2 : FS) (k k2 : Nat),
    fetchLayersLoop Join cwd osErr fetchLayerData gunzip dir layers fs k = (none, fs2, k2) →
    fs p = some (.file c) →
    (∀ l ∈ layers, ∀ d z, fetchLayerData l = .ok d → gunzip d = .ok z →
      ∀ e ∈ z.entries, (e.Typeflag = TypeReg ∨ e.Typeflag = TypeRegA) →
        resolve cwd (Join dir e.Name) ≠ p) →
    fs2 p = some (.file c) := by
  intro layers
  induction layers with
  | nil =>
    intro fs fs2 k k2 h hp _
    simp only [fetchLayersLoop] at h
    rw [← (Prod.mk.inj (Prod.mk.inj h).2).1]; exact hp
  | cons layer more ih =>
    intro fs fs2 k k2 h hp hno
    obtain ⟨data, zipped, fs1, k1, hf, hg, hx, hrun⟩ :=
      fetchLayersLoop_cons_ok Join cwd osErr fetchLayerData gunzip dir layer more fs fs2 k k2 h
    have h1 : fs1 p = some (.file c) :=
      extractEntries_keeps Join cwd osErr dir zipped.failure p c zipped.entries fs fs1 k k1 hx hp
        (hno layer (List.mem_cons_self _ _) data zipped hf hg)
    exact ih fs1 fs2 k1 k2 hrun h1 (fun l hl => hno l (List.mem_cons_of_mem _ hl))

theorem fetchLayersLoop_writes (Join : String → String → String) (cwd : Loc)
    (osErr : Nat → Option String)
    (fetchLayerData : Manifest → Except String String)
    (gunzip : String → Except String TarStream) (dir : String)
    (layer : Manifest) (post : List Manifest) (data : String) (zipped : TarStream)
    (hfetch : fetchLayerData layer = .ok data) (hgz : gunzip data = .ok zipped)
    (epre : List TarEntry) (e : TarEntry) (epost : List TarEntry)
    (hentries : zipped.entries = epre ++ e :: epost)
    (hreg : e.Typeflag = TypeReg ∨ e.Typeflag = TypeRegA)
    (hlast : ∀ e1 ∈ epost, (e1.Typeflag = TypeReg ∨ e1.Typeflag = TypeRegA) →
      resolve cwd (Join dir e1.Name) ≠ resolve cwd (Join dir e.Name))
    (hlater : ∀ l ∈ post, ∀ d z, fetchLayerData l = .ok d → gunzip d = .ok z →
      ∀ e1 ∈ z.entries, (e1.Typeflag = TypeReg ∨ e1.Typeflag = TypeRegA) →
        resolve cwd (Join dir e1.Name) ≠ resolve cwd (Join dir e.Name)) :
    ∀ (pre : List Manifest) (fs fs2 : FS) (k k2 : Nat),
    fetchLayersLoop Join cwd osErr fetchLayerData gunzip dir (pre ++ layer :: post) fs k
      = (none, fs2, k2) →
    fs2 (resolve cwd (Join dir e.Name)) = some (.file e.body) := by
  intro pre
  induction pre with
  | nil =>
    intro fs fs2 k k2 h
    obtain ⟨data1, zipped1, fs1, k1, hf, hg, hx, hrun⟩ :=
      fetchLayersLoop_cons_ok Join cwd osErr fetchLayerData gunzip dir layer post fs fs2 k k2 h
    rw [hfetch] at hf
    have hd : data = data1 := by injection hf
    subst hd
    rw [hgz] at hg
    have hz : zipped = zipped1 := by injection hg
    subst hz
    have hx1 : extractEntries Join cwd osErr dir zipped.failure (epre ++ e :: epost) fs k
        = (none, fs1, k1) := by
      rw [← hentries]; exact hx
    have hw := extractEntries_writes Join cwd osErr dir zipped.failure e epost hreg hlast
      epre fs fs1 k k1 hx1
    exact fetchLayersLoop_keeps Join cwd osErr fetchLayerData gunzip dir _ _ post fs1 fs2 k1 k2
      hrun hw hlater
  | cons l more ih =>
    intro fs fs2 k k2 h
    obtain ⟨_, _, fs1, k1, _, _, _, hrun⟩ :=
      fetchLayersLoop_cons_ok Join cwd osErr fetchLayerData gunzip dir l
        (more ++ layer :: post) fs fs2 k k2 h
    exact ih fs1 fs2 k1 k2 hrun

theorem fetchLayersLoop_fold (Join : String → String → String) (cwd : Loc)
    (osErr : Nat → Option String)
    (fetchLayerData : Manifest → Except String String)
    (gunzip : String → Except String TarStream) (dir : String) :
    ∀ (layers : List Manifest) (fs fs2 : FS) (k k2 : Nat),
    fetchLayersLoop Join cwd osErr fetchLayerData gunzip dir layers fs k = (none, fs2, k2) →
    (fs2, k2) = layers.foldl
      (fun acc layer =>
        match fetchLayerData layer with
        | .error _ => acc
        | .ok data =>
          match gunzip data with
          | .error _ => acc
          | .ok zipped => (extractLayer Join cwd osErr dir zipped acc.1 acc.2).2) (fs, k) := by
  intro layers
  induction layers with
  | nil =>
    intro fs fs2 k k2 h
    simp only [fetchLayersLoop] at h
    exact (Prod.mk.inj h).2.symm
  | cons layer more ih =>
    intro fs fs2 k k2 h
    obtain ⟨data, zipped, fs1, k1, hf, hg, hx, hrun⟩ :=
      fetchLayersLoop_cons_ok Join cwd osErr fetchLayerData gunzip dir layer more fs fs2 k k2 h
    rw [ih fs1 fs2 k1 k2 hrun]
    simp only [List.foldl_cons, hf, hg, hx]

theorem fetchLayers_ok (Join : String → String → String) (cwd : Loc)
    (osErr : Nat → Option String) (uuid : String)
    (fetchLayerData : Manifest → Except String String)
    (gunzip : String → Except String TarStream)
    (manifest : LayerManifest) (fs fs2 : FS) (dir : String)
    (h : fetchLayers Join cwd osErr uuid fetchLayerData gunzip manifest fs = (.ok dir, fs2)) :
    dir = "./images/" ++ uuid
      ∧ ∃ fs0 k2, MkdirAll osErr cwd fs 0 ("./images/" ++ uuid) = (none, fs0)
        ∧ fetchLayersLoop Join cwd osErr fetchLayerData gunzip ("./images/" ++ uuid)
            manifest.Layers fs0 1 = (none, fs2, k2) := by
  simp only [fetchLayers] at h
  cases hm : MkdirAll osErr cwd fs 0 ("./images/" ++ uuid) with
  | mk r fs0 =>
    rw [hm] at h
    cases r with
    | some err => exact absurd (congrArg Prod.fst h) (by simp)
    | none =>
      simp only [] at h
      cases hl : fetchLayersLoop Join cwd osErr fetchLayerData gunzip ("./images/" ++ uuid)
          manifest.Layers fs0 1 with
      | mk r1 rest =>
        cases rest with
        | mk fs1 k1 =>
          rw [hl] at h
          cases r1 with
          | some err => exact absurd (congrArg Prod.fst h) (by simp)
          | none =>
            simp only [] at h
            have h1 := (Prod.mk.inj h).1
            have h2 := (Prod.mk.inj h).2
            injection h1 with h1
            exact ⟨h1.symm, fs0, k1, rfl, by rw [← h2]; exact hl⟩

/-- C4: when `fetchLayers` returns without error, the disk it leaves is the
left fold of `extractLayer` over `manifest.Layers`, first to last, from the
disk with the fresh extraction directory; and the location of a
regular-file entry `e` of a layer, when no later entry of that layer and no
entry of a later layer writes the same location, holds the body of `e`. -/
theorem layers_last_writer_wins (Join : String → String → String) (cwd : Loc)
    (osErr : Nat → Option String) (uuid : String)
    (fetchLayerData : Manifest → Except String String)
    (gunzip : String → Except String TarStream)
    (manifest : LayerManifest) (fs fs2 : FS) (dir : String)
    (hrun : fetchLayers Join cwd osErr uuid fetchLayerData gunzip manifest fs = (.ok dir, fs2)) :
    (∃ fs0, MkdirAll osErr cwd fs 0 dir = (none, fs0)
        ∧ fs2 = (manifest.Layers.foldl
          (fun acc layer =>
            match fetchLayerData layer with
            | .error _ => acc
            | .ok data =>
              match gunzip data with
              | .error _ => acc
              | .ok zipped => (extractLayer Join cwd osErr dir zipped acc.1 acc.2).2)
          (fs0, 1)).1)
      ∧ ∀ (pre : List Manifest) (layer : Manifest) (post : List Manifest)
          (data : String) (zipped : TarStream)
          (epre : List TarEntry) (e : TarEntry) (epost : List TarEntry),
          manifest.Layers = pre ++ layer :: post →
          fetchLayerData layer = .ok data → gunzip data = .ok zipped →
          zipped.entries = epre ++ e :: epost →
          (e.Typeflag = TypeReg ∨ e.Typeflag = TypeRegA) →
          (∀ e1 ∈ epost, (e1.Typeflag = TypeReg ∨ e1.Typeflag = TypeRegA) →
            resolve cwd (Join dir e1.Name) ≠ resolve cwd (Join dir e.Name)) →
          (∀ l ∈ post, ∀ d z, fetchLayerData l = .ok d → gunzip d = .ok z →
            ∀ e1 ∈ z.entries, (e1.Typeflag = TypeReg ∨ e1.Typeflag = TypeRegA) →
              resolve cwd (Join dir e1.Name) ≠ resolve cwd (Join dir e.Name)) →
          fs2 (resolve cwd (Join dir e.Name)) = some (.file e.body) := by
  obtain ⟨hdir, fs0, k2, hmk, hloop⟩ :=
    fetchLayers_ok Join cwd osErr uuid fetchLayerData gunzip manifest fs fs2 dir hrun
  subst hdir
  refine ⟨⟨fs0, hmk, ?_⟩, ?_⟩
  · have := fetchLayersLoop_fold Join cwd osErr fetchLayerData gunzip _ manifest.Layers
      fs0 fs2 1 k2 hloop
    rw [← this]
  · intro pre layer post data zipped epre e epost hsplit hfetch hgz hentries hreg hlast hlater
    rw [hsplit] at hloop
    exact fetchLayersLoop_writes Join cwd osErr fetchLayerData gunzip _ layer post data zipped
      hfetch hgz epre e epost hentries hreg hlast hlater pre _ fs2 1 k2 hloop

/-- Witness of C4: layer A writes `f` with content 1, layer B after it writes
`f` with content 2, and `f` is left holding 2. -/
theorem layers_last_writer_wins_witness :
    (fetchLayers (fun a b => a ++ "/" ++ b) ["work"] (fun _ => none) "u"
        (fun m => .ok m.Digest)
        (fun d => if d = "A" then .ok ⟨[⟨"f", TypeReg, "1"⟩], none⟩
          else .ok ⟨[⟨"f", TypeReg, "2"⟩], none⟩)
        ⟨2, "", ⟨"c", "", 0, ⟨"", ""⟩⟩, [⟨"A", "", 0, ⟨"", ""⟩⟩, ⟨"B", "", 0, ⟨"", ""⟩⟩]⟩
        (fun _ => none)).2 ["work", "images", "u", "f"] = some (.file "2") :=
  (layers_last_writer_wins (fun a b => a ++ "/" ++ b) ["work"] (fun _ => none) "u"
      (fun m => .ok m.Digest)
      (fun d => if d = "A" then .ok ⟨[⟨"f", TypeReg, "1"⟩], none⟩
        else .ok ⟨[⟨"f", TypeReg, "2"⟩], none⟩)
      ⟨2, "", ⟨"c", "", 0, ⟨"", ""⟩⟩, [⟨"A", "", 0, ⟨"", ""⟩⟩, ⟨"B", "", 0, ⟨"", ""⟩⟩]⟩
      (fun _ => none) _ "./images/u" (Prod.ext (by decide) rfl)).2
    [⟨"A", "", 0, ⟨"", ""⟩⟩] ⟨"B", "", 0, ⟨"", ""⟩⟩ [] "B" ⟨[⟨"f", TypeReg, "2"⟩], none⟩
    [] ⟨"f", TypeReg, "2"⟩ [] rfl rfl (by decide) rfl (Or.inl rfl)
    (by simp) (by simp)

/-- A regular entry `a/b.txt` with no directory `a` makes `os.Create` fail and
`fetchLayers` return the error. -/
theorem fetchLayers_missing_parent :
    (fetchLayers (fun a b => a ++ "/" ++ b) ["work"] (fun _ => none) "u"
        (fun m => .ok m.Digest) (fun _ => .ok ⟨[⟨"a/b.txt", TypeReg, "x"⟩], none⟩)
        ⟨2, "", ⟨"c", "", 0, ⟨"", ""⟩⟩, [⟨"A", "", 0, ⟨"", ""⟩⟩]⟩
        (fun _ => none)).1 = .error "open: no such file or directory" := by
  decide

/-- A regular file at `./images` makes `os.MkdirAll` of the extraction
directory fail and `fetchLayers` return the error. -/
theorem fetchLayers_images_is_file :
    (fetchLayers (fun a b => a ++ "/" ++ b) ["work"] (fun _ => none) "u"
        (fun m => .ok m.Digest) (fun _ => .ok ⟨[⟨"f", TypeReg, "1"⟩], none⟩)
        ⟨2, "", ⟨"c", "", 0, ⟨"", ""⟩⟩, [⟨"A", "", 0, ⟨"", ""⟩⟩]⟩
        (fun q => if q = ["work", "images"] then some (.file "x") else none)).1
      = .error "mkdir: not a directory" := by
  decide

/-- A failing `io.Copy` or `os.Chmod` makes `fetchLayers` return the error. -/
theorem fetchLayers_copy_chmod_error :
    (fetchLayers (fun a b => a ++ "/" ++ b) ["work"]
        (fun k => if k = 2 then some "unexpected EOF" else none) "u"
        (fun m => .ok m.Digest) (fun _ => .ok ⟨[⟨"f", TypeReg, "1"⟩], none⟩)
        ⟨2, "", ⟨"c", "", 0, ⟨"", ""⟩⟩, [⟨"A", "", 0, ⟨"", ""⟩⟩]⟩
        (fun _ => none)).1 = .error "unexpected EOF"
      ∧ (fetchLayers (fun a b => a ++ "/" ++ b) ["work"]
        (fun k => if k = 3 then some "chmod: operation not permitted" else none) "u"
        (fun m => .ok m.Digest) (fun _ => .ok ⟨[⟨"f", TypeReg, "1"⟩], none⟩)
        ⟨2, "", ⟨"c", "", 0, ⟨"", ""⟩⟩, [⟨"A", "", 0, ⟨"", ""⟩⟩]⟩
        (fun _ => none)).1 = .error "chmod: operation not permitted" := by
  decide

end GoDocker
